import Mathlib

/-
Verification of the hostscanner repository (Go): a shallow embedding of the
network package (IP range parsing and expansion) and the scanner package
(ping-based discovery engine), with theorems settling the specified claims.

Go byte slices (net.IP) are modelled as List Nat with byte values < 256.
Go strings are modelled as List Char (network package) or String (scanner
package); all inputs of interest are ASCII, where Go bytes and Lean chars
coincide.  Machine integers (uint32) are Nat with explicit % 2^32 where the
source can overflow.  External effects (process execution, DNS, ARP, the
wall clock) are modelled as explicit oracle parameters.
-/

namespace HostScanner

/-- Model of Go net.IP: a byte slice. -/
abbrev NetIP := List Nat

/-- Model of Go net v4InV6Prefix: the 12-byte prefix marking an IPv4 address
embedded in 16-byte form. -/
def v4InV6Pre : NetIP := [0, 0, 0, 0, 0, 0, 0, 0, 0, 0, 255, 255]

/-- Model of Go net.IPv4: builds the 16-byte form of an IPv4 address. -/
def netIPv4 (a b c d : Nat) : NetIP := v4InV6Pre ++ [a, b, c, d]

/-- Model of Go net.IP.To4: the 4-byte form of an IPv4 address, or none for
other lengths or non-v4-mapped 16-byte addresses. -/
def to4 (ip : NetIP) : Option NetIP :=
  if ip.length = 4 then some ip
  else if ip.length = 16 ∧ ip.take 12 = v4InV6Pre then some (ip.drop 12)
  else none

/-- Model of Go net.IP.Equal: byte equality, with an IPv4 address and its
16-byte embedded form considered equal. -/
def IPEqual (ip x : NetIP) : Bool :=
  if ip.length = x.length then ip == x
  else if ip.length = 4 ∧ x.length = 16 then
    (x.take 12 == v4InV6Pre) && (ip == x.drop 12)
  else if ip.length = 16 ∧ x.length = 4 then
    (ip.take 12 == v4InV6Pre) && (ip.drop 12 == x)
  else false

/-- Big-endian value of a 4-byte address, as in the body of ipToUint32:
uint32(ip[0])<<24 + uint32(ip[1])<<16 + uint32(ip[2])<<8 + uint32(ip[3]). -/
def u32OfOctets (l : NetIP) : Nat :=
  l.getD 0 0 * 2 ^ 24 + l.getD 1 0 * 2 ^ 16 + l.getD 2 0 * 2 ^ 8 + l.getD 3 0

/-- Model of the source ipToUint32: converts via To4 first; none models the
panic Go would raise when To4 yields nil. -/
def ipToUint32 (ip : NetIP) : Option Nat := (to4 ip).map u32OfOctets

/-- Model of the source uint32ToIP: net.IPv4(byte(n>>24), byte(n>>16),
byte(n>>8), byte(n)); byte() truncates modulo 256. -/
def uint32ToIP (n : Nat) : NetIP :=
  netIPv4 (n / 2 ^ 24 % 256) (n / 2 ^ 16 % 256) (n / 2 ^ 8 % 256) (n % 256)

/-- Characters accepted by Go unicode.IsSpace (the White_Space property),
used by strings.TrimSpace. -/
def goIsSpace (c : Char) : Bool :=
  let n := c.toNat
  n = 32 ∨ (9 ≤ n ∧ n ≤ 13) ∨ n = 0x85 ∨ n = 0xa0 ∨ n = 0x1680 ∨
  (0x2000 ≤ n ∧ n ≤ 0x200a) ∨ n = 0x2028 ∨ n = 0x2029 ∨ n = 0x202f ∨
  n = 0x205f ∨ n = 0x3000

/-- Model of Go strings.TrimSpace. -/
def trimSpace (s : List Char) : List Char :=
  ((s.dropWhile goIsSpace).reverse.dropWhile goIsSpace).reverse

/-- Model of Go strings.Split with a single-character separator: fields
between separators, empty fields preserved. -/
def splitChar (sep : Char) : List Char → List (List Char)
  | [] => [[]]
  | c :: rest =>
    if c = sep then [] :: splitChar sep rest
    else
      match splitChar sep rest with
      | f :: fs => (c :: f) :: fs
      | [] => [[c]]

/-- Model of Go net parseIPv4Fields: dot-decimal octet scan with state
val (current field value), dig (digits in current field), pos (completed
fields), and the completed fields.  Rejects leading zeros, values over 255,
empty fields, and field counts other than four. -/
def parseIPv4Fields : List Char → Nat → Nat → Nat → List Nat → Option (List Nat)
  | [], val, _dig, pos, fields =>
    if pos < 3 then none else some (fields ++ [val])
  | c :: rest, val, dig, pos, fields =>
    if '0' ≤ c ∧ c ≤ '9' then
      if dig = 1 ∧ val = 0 then none
      else
        let v := val * 10 + (c.toNat - Char.toNat '0')
        if v > 255 then none else parseIPv4Fields rest v (dig + 1) pos fields
    else if c = '.' then
      if dig = 0 ∨ rest = [] then none
      else if pos = 3 then none
      else parseIPv4Fields rest 0 0 (pos + 1) (fields ++ [val])
    else none

/-- Model of Go netip parseIPv4: the four octets of a dot-decimal IPv4
string, or none when malformed. -/
def parseIPv4Chars (s : List Char) : Option (List Nat) :=
  parseIPv4Fields s 0 0 0 []

/-- Value of one hexadecimal digit, as classified by the digit loop of Go
netip parseIPv6. -/
def hexDigitVal (c : Char) : Option Nat :=
  if '0' ≤ c ∧ c ≤ '9' then some (c.toNat - Char.toNat '0')
  else if 'a' ≤ c ∧ c ≤ 'f' then some (c.toNat - Char.toNat 'a' + 10)
  else if 'A' ≤ c ∧ c ≤ 'F' then some (c.toNat - Char.toNat 'A' + 10)
  else none

/-- Scan of one 16-bit hex group in Go netip parseIPv6: returns the
accumulated value, the number of digits consumed, and the rest; none when a
group has more than four digits. -/
def scanHexField : List Char → Nat → Nat → Option (Nat × Nat × List Char)
  | [], acc, off => some (acc, off, [])
  | c :: rest, acc, off =>
    match hexDigitVal c with
    | none => some (acc, off, c :: rest)
    | some v => if off > 3 then none else scanHexField rest (acc * 16 + v) (off + 1)

/-- End-of-parse step of Go netip parseIPv6: rejects trailing text, expands
the ellipsis when fewer than 16 bytes were parsed, and rejects an ellipsis
that expands to nothing. -/
def v6Finish (s : List Char) (i : Nat) (ip : List Nat) (ell : Option Nat) :
    Option (List Nat) :=
  if s ≠ [] then none
  else if i < 16 then
    match ell with
    | none => none
    | some e => some (ip.take e ++ List.replicate (16 - i) 0 ++ ip.drop e)
  else
    match ell with
    | some _ => none
    | none => some ip

/-- Main loop of Go netip parseIPv6, with fuel (each iteration consumes at
least one character, so length-based fuel suffices): parses colon-separated
hex groups, at most one ellipsis, and an optional trailing embedded
dot-decimal IPv4 address. -/
def parseIPv6Loop : Nat → List Char → Nat → List Nat → Option Nat → Option (List Nat)
  | 0, _, _, _, _ => none
  | fuel + 1, s, i, ip, ell =>
    if i < 16 then
      match scanHexField s 0 0 with
      | none => none
      | some (acc, off, rest) =>
        if off = 0 then none
        else
          match rest with
          | '.' :: _ =>
            if ell = none ∧ i ≠ 12 then none
            else if i + 4 > 16 then none
            else
              match parseIPv4Chars s with
              | none => none
              | some oct => v6Finish [] (i + 4) (ip ++ oct) ell
          | [] => v6Finish [] (i + 2) (ip ++ [acc / 256, acc % 256]) ell
          | c :: rest2 =>
            if c ≠ ':' ∨ rest2 = [] then none
            else
              match rest2 with
              | ':' :: rest3 =>
                if ell ≠ none then none
                else if rest3 = [] then
                  v6Finish [] (i + 2) (ip ++ [acc / 256, acc % 256]) (some (i + 2))
                else
                  parseIPv6Loop fuel rest3 (i + 2) (ip ++ [acc / 256, acc % 256])
                    (some (i + 2))
              | _ => parseIPv6Loop fuel rest2 (i + 2) (ip ++ [acc / 256, acc % 256]) ell
    else v6Finish s i ip ell

/-- Model of Go netip parseIPv6: the 16 bytes of a textual IPv6 address,
handling a leading ellipsis, or none when malformed. -/
def parseIPv6Chars (s : List Char) : Option (List Nat) :=
  match s with
  | ':' :: ':' :: rest =>
    if rest = [] then some (List.replicate 16 0)
    else parseIPv6Loop (rest.length + 1) rest 0 [] (some 0)
  | _ => parseIPv6Loop (s.length + 1) s 0 [] none

/-- First dot or colon in a string, deciding the address family exactly as
the character scan of Go netip.ParseAddr does. -/
def firstDotOrColon : List Char → Option Char
  | [] => none
  | c :: rest => if c = '.' ∨ c = ':' then some c else firstDotOrColon rest

/-- Model of Go netip.ParseAddr followed by AsSlice: 4 bytes for an IPv4
address, 16 bytes for an IPv6 address, none when unparseable.  A percent
sign (zone marker) always leads to a nil result from net.ParseIP and a
parse error from net.ParseCIDR, so it is rejected here. -/
def parseAddr (s : List Char) : Option NetIP :=
  if s.contains '%' then none
  else
    match firstDotOrColon s with
    | some c => if c = '.' then parseIPv4Chars s else parseIPv6Chars s
    | none => none

/-- Model of Go net.ParseIP: always returns the 16-byte form (an IPv4
result is embedded via the v4-in-v6 prefix). -/
def parseIP (s : List Char) : Option NetIP :=
  (parseAddr s).map (fun b => if b.length = 4 then v4InV6Pre ++ b else b)

/-- Model of Go net dtoi: decimal scan returning the value, the number of
characters consumed, and whether the scan succeeded (at least one digit,
value below the 0xFFFFFF cutoff). -/
def dtoi (s : List Char) : Nat × Nat × Bool :=
  go s 0 0
where
  go : List Char → Nat → Nat → Nat × Nat × Bool
    | [], n, i => if i = 0 then (0, 0, false) else (n, i, true)
    | c :: rest, n, i =>
      if '0' ≤ c ∧ c ≤ '9' then
        let n2 := n * 10 + (c.toNat - Char.toNat '0')
        if n2 ≥ 0xFFFFFF then (0xFFFFFF, i + 1, false) else go rest n2 (i + 1)
      else if i = 0 then (0, 0, false)
      else (n, i, true)

/-- Model of Go net.CIDRMask: a mask of the given total bit size whose
first ones bits are set. -/
def cidrMask (ones bits : Nat) : List Nat :=
  (List.range (bits / 8)).map (fun k =>
    let rem := ones - k * 8
    if rem ≥ 8 then 255 else 255 - 255 / 2 ^ rem)

/-- Model of Go net.IP.Mask: byte-wise AND after normalizing a 4-byte
address against a 16-byte mask and vice versa; none models the nil result
on a length mismatch. -/
def ipMask (ip mask : List Nat) : Option NetIP :=
  let mask2 := if mask.length = 16 ∧ ip.length = 4 ∧ (mask.take 12).all (· = 255)
    then mask.drop 12 else mask
  let ip2 := if mask2.length = 4 ∧ ip.length = 16 ∧ ip.take 12 = v4InV6Pre
    then ip.drop 12 else ip
  if ip2.length ≠ mask2.length then none
  else some (List.zipWith (fun a b => a &&& b) ip2 mask2)

/-- Split at the first occurrence of a character, as Go IndexByte-based
slicing does; none when the character is absent. -/
def splitAtFirst (sep : Char) : List Char → Option (List Char × List Char)
  | [] => none
  | c :: rest =>
    if c = sep then some ([], rest)
    else (splitAtFirst sep rest).map (fun p => (c :: p.1, p.2))

/-- Model of Go net.ParseCIDR: splits at the first slash, parses the
address part, requires the mask part to be an all-digit decimal no larger
than the address bit length, and returns the address bytes together with
the mask. -/
def netParseCIDR (s : List Char) : Option (NetIP × List Nat) :=
  match splitAtFirst '/' s with
  | none => none
  | some (addr, mask) =>
    match parseAddr addr with
    | none => none
    | some ipb =>
      let d := dtoi mask
      if d.2.2 = false ∨ d.2.1 ≠ mask.length ∨ d.1 > ipb.length * 8 then none
      else some (ipb, cidrMask d.1 (ipb.length * 8))

/-- Errors of the network package: ErrInvalidIPAddress, ErrInvalidCIDR,
ErrInvalidRange. -/
inductive ParseErr
  | invalidIPAddr
  | invalidCIDR
  | invalidRange
deriving DecidableEq

/-- Model of the source IPRange struct. -/
structure IPRange where
  StartIP : NetIP
  EndIP : NetIP
deriving DecidableEq

/-- Model of the source parseCIDR: net.ParseCIDR, then startIP is the
address masked with the network mask and endIP is the broadcast address
startIP[i] OR NOT mask[i], computed octet-wise. -/
def parseCIDR (s : List Char) : Except ParseErr IPRange :=
  match netParseCIDR s with
  | none => .error .invalidCIDR
  | some (ip, mask) =>
    let startIP := (ipMask ip mask).getD []
    let endIP := List.zipWith (fun a m => a ||| (255 ^^^ m)) startIP mask
    .ok ⟨startIP, endIP⟩

/-- Model of the source parseRange: split on the dash, require exactly two
parts, parse each side with surrounding whitespace trimmed. -/
def parseRange (s : List Char) : Except ParseErr IPRange :=
  let parts := splitChar '-' s
  if parts.length ≠ 2 then .error .invalidRange
  else
    match parseIP (trimSpace (parts.getD 0 [])), parseIP (trimSpace (parts.getD 1 [])) with
    | some a, some b => .ok ⟨a, b⟩
    | _, _ => .error .invalidRange

/-- Model of the source ParseIPRange: CIDR notation when the input contains
a slash, range notation when it contains a dash, otherwise a single IP. -/
def ParseIPRange (s : List Char) : Except ParseErr IPRange :=
  if s.contains '/' then parseCIDR s
  else if s.contains '-' then parseRange s
  else
    match parseIP s with
    | none => .error .invalidIPAddr
    | some ip => .ok ⟨ip, ip⟩

/-- Model of the generation loop of the source GenerateIPs: the Go loop
for i := start; i <= end; i++ over uint32, which increments modulo 2^32.
The fuel bounds how many iterations are simulated; none means the loop has
not finished within that many iterations, so a result of none for every
fuel means the loop never terminates. -/
def genLoop : Nat → Nat → Nat → List NetIP → Option (List NetIP)
  | 0, _, _, _ => none
  | fuel + 1, i, e, acc =>
    if i ≤ e then genLoop fuel ((i + 1) % 2 ^ 32) e (acc ++ [uint32ToIP i])
    else some acc

/-- Model of the source GenerateIPs: empty when either endpoint has no
4-byte form, otherwise the uint32 counting loop from start to end.  The
capacity pre-allocation of the source is a performance hint with no effect
on the produced elements, so it is not modelled. -/
def GenerateIPs (fuel : Nat) (r : IPRange) : Option (List NetIP) :=
  match to4 r.StartIP, to4 r.EndIP with
  | some s4, some e4 => genLoop fuel (u32OfOctets s4) (u32OfOctets e4) []
  | _, _ => some []

/-- Model of the Go error values the scanner package stores on a record:
the error cmd.Run returned (with its textual detail), or the wrapped
ErrUnsupportedOS. -/
inductive GoErr
  | exitErr (detail : String)
  | unsupportedOS (goos : String)
deriving DecidableEq

/-- Model of the source Host struct.  Latency is in nanoseconds
(time.Duration). -/
structure Host where
  IP : NetIP
  Hostname : String := ""
  MAC : String := ""
  Vendor : String := ""
  Latency : Nat := 0
  IsAlive : Bool := false
  Error : Option GoErr := none
deriving DecidableEq

/-- Model of the source ScanResult struct.  NetworkRange (never set by
ScanNetwork) and the wall-clock ScanTime are not modelled. -/
structure ScanResult where
  TotalHosts : Nat
  AliveHosts : Nat
  Hosts : List Host
deriving DecidableEq

/-- Millisecond value printed by fmt.Sprintf %.0f of
timeout.Seconds()*1000 for a timeout of ns nanoseconds: the quotient
ns / 10^6 rounded half to even.  Float64 evaluation of Seconds()*1000 is
exact for every whole-millisecond timeout in the realistic range, so the
printed value is modelled exactly there. -/
def msOfNs (ns : Nat) : Nat :=
  let q := ns / 1000000
  let r := ns % 1000000
  if 2 * r < 1000000 then q
  else if 2 * r > 1000000 then q + 1
  else if q % 2 = 0 then q else q + 1

/-- Model of the command construction in the source pingHost: the argument
list of the ping invocation per platform, none for an unsupported GOOS.
Both the windows branch and the darwin/linux branch pass the
millisecond count of the timeout. -/
def pingArgs (goos : String) (timeoutNs : Nat) (ip : String) : Option (List String) :=
  if goos = "windows" then some ["-n", "1", "-w", Nat.repr (msOfNs timeoutNs), ip]
  else if goos = "darwin" ∨ goos = "linux" then
    some ["-c", "1", "-W", Nat.repr (msOfNs timeoutNs), ip]
  else none

/-- Model of the source pingHost.  The external process is an oracle run
from the constructed argument list to the result of cmd.Run: none for a
success exit status, some detail for a non-zero exit or invocation
failure.  Returns the (isAlive, error) pair of the source. -/
def pingHost (goos : String) (run : List String → Option String)
    (ip : String) (timeoutNs : Nat) : Bool × Option GoErr :=
  match pingArgs goos timeoutNs ip with
  | some args =>
    match run args with
    | none => (true, none)
    | some e => (false, some (.exitErr e))
  | none => (false, some (.unsupportedOS goos))

/-- Model of net.IP.String restricted to addresses with a 4-byte form, the
only shape the engine ever passes it: dot-decimal text.  Other shapes are
outside the scope of this development and map to a placeholder. -/
def ipString (ip : NetIP) : String :=
  match to4 ip with
  | some l =>
    Nat.repr (l.getD 0 0) ++ "." ++ Nat.repr (l.getD 1 0) ++ "." ++
      Nat.repr (l.getD 2 0) ++ "." ++ Nat.repr (l.getD 3 0)
  | none => "?"

/-- Model of strings.TrimSuffix. -/
def trimSuffixStr (s suf : String) : String :=
  if suf.toList.isSuffixOf s.toList then (s.toList.take (s.length - suf.length)).asString
  else s

/-- Static vendor table of the source getVendorFromMAC, in source order. -/
def vendors : List (String × String) :=
  [("00:50:56", "VMware"),
   ("08:00:27", "Oracle VirtualBox"),
   ("52:54:00", "QEMU/KVM"),
   ("B8:27:EB", "Raspberry Pi Foundation"),
   ("DC:A6:32", "Raspberry Pi Foundation"),
   ("E4:5F:01", "Raspberry Pi Foundation"),
   ("00:16:3E", "Xen"),
   ("00:1C:42", "Parallels"),
   ("AC:DE:48", "Apple"),
   ("F8:FF:C2", "Apple"),
   ("28:CD:C1", "Apple"),
   ("3C:07:54", "Apple")]

/-- Model of the source getVendorFromMAC.  The normalized oui local is
computed and then never consulted, exactly as in the source; the lookup
tests the raw MAC against each table key with strings.HasPrefix.  Go map
iteration order is arbitrary, but at most one key can match a given string
(all keys have length 8 and are pairwise distinct; see
vendors_at_most_one_match), so the list-order search below is
order-independent and hence faithful. -/
def getVendorFromMAC (mac : String) : String :=
  if mac.length < 8 then "Unknown"
  else
    let _oui := (((mac.take 8).replace ":" "").replace "-" "").toUpper
    match vendors.find? (fun p => p.1.toList.isPrefixOf mac.toList) with
    | some p => p.2
    | none => "Unknown"

/-- Model of the source scanHost.  Oracles: run for the ping process,
elapsed for the wall-clock time time.Since measures around the ping call,
lookupAddr for net.LookupAddr (none models a lookup error), macOf for
getMACAddress (empty string when undetermined).  As in the source, the
hostname, MAC and vendor enrichment runs only when the ping reported the
host alive. -/
def scanHost (goos : String) (run : List String → Option String) (elapsed : Nat)
    (lookupAddr : Option (List String)) (macOf : String)
    (ip : NetIP) (timeoutNs : Nat) : Host :=
  let p := pingHost goos run (ipString ip) timeoutNs
  let base : Host := { IP := ip, Latency := elapsed, IsAlive := p.1, Error := p.2 }
  if p.1 then
    let withName :=
      match lookupAddr with
      | some (n0 :: _) => { base with Hostname := trimSuffixStr n0 "." }
      | _ => base
    if macOf ≠ "" then
      { withName with MAC := macOf, Vendor := getVendorFromMAC macOf }
    else withName
  else base

/-- Model of the source worker: processes its stream of jobs in order,
emitting one Host per job via scanHost (abstracted as scanOne). -/
def worker (scanOne : NetIP → Host) (jobs : List NetIP) : List Host :=
  jobs.map scanOne

/-- Drain loop of the source ScanNetwork: append each received record to
the result and bump the alive counter when the record is alive. -/
def collectHosts (received : List Host) (init : ScanResult) : ScanResult :=
  received.foldl (fun r h =>
    { r with
      Hosts := r.Hosts ++ [h],
      AliveHosts := r.AliveHosts + if h.IsAlive then 1 else 0 }) init

/-- Model of the source ScanNetwork given the sequence of records the
result channel delivers: TotalHosts is set to the input length up front,
then the drain loop runs.  The concurrency of the worker pool is captured
in the hypotheses of the theorems using this definition: the jobs channel
hands the inputs out to the workers as some partition into per-worker
streams, and the result channel delivers some interleaving (hence a
permutation) of the records the workers emit. -/
def ScanNetwork (ips : List NetIP) (received : List Host) : ScanResult :=
  collectHosts received { TotalHosts := ips.length, AliveHosts := 0, Hosts := [] }

/-- Time units in which a platform echo-request utility can expect its
timeout argument. -/
inductive TimeUnit
  | milliseconds
  | seconds
deriving DecidableEq

/-- Modelled from the spec: the unit the invoked echo-request utility
expects for its timeout flag on each platform the source handles.  The
spec states the timeout must be converted to whatever unit the invoked
utility expects, milliseconds on some platforms and seconds on others: the
windows ping -w flag and the darwin ping -W flag take milliseconds, while
the linux (iputils) ping -W flag takes seconds. -/
def specTimeoutUnit (goos : String) : Option TimeUnit :=
  if goos = "windows" ∨ goos = "darwin" then some .milliseconds
  else if goos = "linux" then some .seconds
  else none

/-- Count of a caller-supplied timeout of ns nanoseconds in a given unit:
the value a correct conversion would render into the argument list. -/
def timeoutIn (u : TimeUnit) (ns : Nat) : Nat :=
  match u with
  | .milliseconds => msOfNs ns
  | .seconds => ns / 1000000000

/-- Concrete per-host scan function for witness instantiations: alive
exactly when the first octet is 10. -/
def demoScanOne : NetIP → Host :=
  fun ip => { IP := ip, IsAlive := decide (ip.headD 0 = 10) }

/-- Concrete address list for witness instantiations. -/
def demoIPs : List NetIP := [[10, 0, 0, 1], [20, 0, 0, 2]]

/-- Records of a one-worker run over demoIPs, in input order. -/
def demoR1 : List Host := demoIPs.map demoScanOne

/-- Job split of a two-worker run over demoIPs: the second address went to
the first worker. -/
def demoJobs2 : List (List NetIP) := [[[20, 0, 0, 2]], [[10, 0, 0, 1]]]

/-- Records of the two-worker run, as delivered by the result channel. -/
def demoR2 : List Host := [demoScanOne [10, 0, 0, 1], demoScanOne [20, 0, 0, 2]]

/-- At most one vendor-table key can be a string prefix of a given MAC:
all keys have length 8 and are pairwise distinct, and two prefixes of the
same string with equal lengths coincide.  This makes the list-order lookup
in the model independent of order, hence a faithful rendering of the
arbitrary Go map iteration order of the source. -/
theorem vendors_at_most_one_match (mac : List Char) (p q : String × String)
    (hp : p ∈ vendors) (hq : q ∈ vendors)
    (hpm : p.1.toList.isPrefixOf mac = true) (hqm : q.1.toList.isPrefixOf mac = true) :
    p = q := by
  have h1 : p.1.toList <+: mac := List.isPrefixOf_iff_prefix.mp hpm
  have h2 : q.1.toList <+: mac := List.isPrefixOf_iff_prefix.mp hqm
  have hlen : ∀ r ∈ vendors, (r.1.toList).length = 8 := by decide
  have hkey : p.1.toList = q.1.toList := by
    rcases List.prefix_or_prefix_of_prefix h1 h2 with h | h
    · exact h.eq_of_length ((hlen p hp).trans (hlen q hq).symm)
    · exact (h.eq_of_length ((hlen q hq).trans (hlen p hp).symm)).symm
  have hinj : ∀ a ∈ vendors, ∀ b ∈ vendors, a.1.toList = b.1.toList → a = b := by decide
  exact hinj p hp q hq hkey

/-- Claim C3 (code bug): the vendor classifier is not case-insensitive and
not separator-insensitive.  The upper-case colon-joined form of a known
prefix maps to its vendor, but the lower-case form and the hyphen-joined
form of the same prefix map to the Unknown sentinel, because the source
prefix-matches the raw MAC against upper-case colon-joined keys and never
consults the normalized OUI it computed.  Unknown prefixes and the empty
string do map to Unknown as claimed. -/
theorem vendor_lookup_case_bug :
    getVendorFromMAC "B8:27:EB:11:22:33" = "Raspberry Pi Foundation"
    ∧ getVendorFromMAC "b8:27:eb:11:22:33" = "Unknown"
    ∧ getVendorFromMAC "B8-27-EB-11-22-33" = "Unknown"
    ∧ getVendorFromMAC "00:50:56:9A:BC:DE" = "VMware"
    ∧ getVendorFromMAC "00-50-56-9A-BC-DE" = "Unknown"
    ∧ getVendorFromMAC "" = "Unknown"
    ∧ getVendorFromMAC "AA:BB:CC:DD:EE:FF" = "Unknown" := by
  refine ⟨?_, ?_, ?_, ?_, ?_, ?_, ?_⟩ <;> rfl

/-- Claim C7 (code bug): the probe builds a single-packet single-attempt
invocation, but passes the millisecond count of the timeout on every
platform.  That matches the spec-expected unit on windows and darwin
(milliseconds), and mismatches it on linux, whose ping -W flag expects
seconds: for a 2-second timeout the correct seconds count is 2, while the
constructed argument is 2000. -/
theorem ping_timeout_unit_bug :
    pingArgs "linux" 2000000000 "10.0.0.1" = some ["-c", "1", "-W", "2000", "10.0.0.1"]
    ∧ specTimeoutUnit "linux" = some TimeUnit.seconds
    ∧ timeoutIn TimeUnit.seconds 2000000000 = 2
    ∧ timeoutIn TimeUnit.milliseconds 2000000000 = 2000
    ∧ (2000 : Nat) ≠ 2
    ∧ pingArgs "windows" 2000000000 "10.0.0.1" = some ["-n", "1", "-w", "2000", "10.0.0.1"]
    ∧ specTimeoutUnit "windows" = some TimeUnit.milliseconds
    ∧ pingArgs "darwin" 2000000000 "10.0.0.1" = some ["-c", "1", "-W", "2000", "10.0.0.1"]
    ∧ specTimeoutUnit "darwin" = some TimeUnit.milliseconds := by
  refine ⟨?_, ?_, ?_, ?_, ?_, ?_, ?_, ?_, ?_⟩ <;> first | rfl | decide

/-- The generation loop never finishes when the end value is the maximal
uint32: every counter value below 2^32 satisfies the loop condition, and
the increment stays below 2^32, so no amount of fuel reaches completion.
This is the fuel-model rendering of an infinite loop. -/
theorem genLoop_none_of_end_max (fuel : Nat) :
    ∀ i acc, i < 2 ^ 32 → genLoop fuel i (2 ^ 32 - 1) acc = none := by
  induction fuel with
  | zero => intro i acc _; rfl
  | succ fuel ih =>
    intro i acc hi
    have hle : i ≤ 2 ^ 32 - 1 := by omega
    simp only [genLoop, if_pos hle]
    exact ih _ _ (Nat.mod_lt _ (by norm_num))

/-- A completed run of the generation loop is stable under extra fuel. -/
theorem genLoop_stable (fuel : Nat) :
    ∀ i e acc l, genLoop fuel i e acc = some l → genLoop (fuel + 1) i e acc = some l := by
  induction fuel with
  | zero => intro i e acc l h; exact absurd h (by simp [genLoop])
  | succ fuel ih =>
    intro i e acc l h
    rw [genLoop] at h ⊢
    by_cases hc : i ≤ e
    · rw [if_pos hc] at h ⊢
      exact ih _ _ _ _ h
    · rwa [if_neg hc] at h ⊢

/-- A completed run of the generation loop is stable under any larger
fuel. -/
theorem genLoop_mono (fuel fuel2 : Nat) (hf : fuel ≤ fuel2) (i e : Nat)
    (acc l : List NetIP) (h : genLoop fuel i e acc = some l) :
    genLoop fuel2 i e acc = some l := by
  induction fuel2, hf using Nat.le_induction with
  | base => exact h
  | succ fuel2 _ ih => exact genLoop_stable fuel2 _ _ _ _ ih

/-- Two completed runs of the generation loop agree, whatever their
fuels. -/
theorem genLoop_det (fuel1 fuel2 i e : Nat) (acc l1 l2 : List NetIP)
    (h1 : genLoop fuel1 i e acc = some l1) (h2 : genLoop fuel2 i e acc = some l2) :
    l1 = l2 := by
  rcases Nat.le_total fuel1 fuel2 with hf | hf
  · have := genLoop_mono fuel1 fuel2 hf i e acc l1 h1
    rw [this] at h2
    exact Option.some_injective _ h2
  · have := genLoop_mono fuel2 fuel1 hf i e acc l2 h2
    rw [this] at h1
    exact (Option.some_injective _ h1).symm

/-- Claim C4 (code bug): expansion does not terminate when the end
endpoint is the maximal address.  The range parsed from 0.0.0.0/0 has end
255.255.255.255, and on it the generation loop completes under no fuel at
all: the uint32 counter wraps past the end value and the loop condition
never fails.  (The source loop for i := start; i <= end; i++ therefore
runs forever.) -/
theorem expansion_nontermination_at_max_address :
    ParseIPRange ("0.0.0.0/0".toList) =
      .ok ⟨[0, 0, 0, 0], [255, 255, 255, 255]⟩
    ∧ ∀ fuel, GenerateIPs fuel ⟨[0, 0, 0, 0], [255, 255, 255, 255]⟩ = none := by
  constructor
  · rfl
  · intro fuel
    have h : GenerateIPs fuel ⟨[0, 0, 0, 0], [255, 255, 255, 255]⟩
        = genLoop fuel 0 (2 ^ 32 - 1) [] := by
      simp [GenerateIPs, to4, u32OfOctets]
    rw [h]
    exact genLoop_none_of_end_max fuel 0 [] (by norm_num)

set_option maxRecDepth 100000 in
/-- Claim C2 (code bug): CIDR expansion behaves as specified on
192.168.1.0/24 (256 addresses, first the network address, last the
broadcast address, the consecutive ascending uint32 values with no
duplicates), but on the valid CIDR 255.255.255.255/32, whose specified
yield is exactly one address, the generation loop completes under no fuel:
the counter wraps past the maximal end value, so the source loops
forever. -/
theorem cidr_expansion_bug :
    ParseIPRange ("255.255.255.255/32".toList) =
      .ok ⟨[255, 255, 255, 255], [255, 255, 255, 255]⟩
    ∧ (∀ fuel, GenerateIPs fuel ⟨[255, 255, 255, 255], [255, 255, 255, 255]⟩ = none)
    ∧ ParseIPRange ("192.168.1.0/24".toList) =
        .ok ⟨[192, 168, 1, 0], [192, 168, 1, 255]⟩
    ∧ (GenerateIPs 257 ⟨[192, 168, 1, 0], [192, 168, 1, 255]⟩).map
        (fun l => (l.length, l.head?, l.getLast?)) =
      some (256, some (netIPv4 192 168 1 0), some (netIPv4 192 168 1 255))
    ∧ (GenerateIPs 257 ⟨[192, 168, 1, 0], [192, 168, 1, 255]⟩).map
        (fun l => l.filterMap ipToUint32) =
      some ((List.range 256).map (fun k => 3232235776 + k)) := by
  refine ⟨rfl, ?_, rfl, ?_, ?_⟩
  · intro fuel
    have h : GenerateIPs fuel ⟨[255, 255, 255, 255], [255, 255, 255, 255]⟩
        = genLoop fuel (2 ^ 32 - 1) (2 ^ 32 - 1) [] := by
      simp [GenerateIPs, to4, u32OfOctets]
    rw [h]
    exact genLoop_none_of_end_max fuel _ [] (by norm_num)
  · rfl
  · rfl

/-- Digit decomposition identity used for the conversion round trips. -/
theorem u32_digits (n : Nat) (hn : n < 4294967296) :
    n / 16777216 % 256 * 16777216 + n / 65536 % 256 * 65536 +
      n / 256 % 256 * 256 + n % 256 = n := by
  omega

/-- Claim C10: the address/integer conversions lose no information.  For a
4-byte address, converting to uint32 and back yields the same IP address
(net.IP.Equal semantics: the source uint32ToIP returns the 16-byte
embedded form of the same address); for an integer below 2^32, converting
to an address and back yields the same integer. -/
theorem ip_uint32_round_trip :
    (∀ ip : NetIP, ip.length = 4 → (∀ b ∈ ip, b < 256) →
      ipToUint32 ip = some (u32OfOctets ip)
      ∧ IPEqual (uint32ToIP (u32OfOctets ip)) ip = true)
    ∧ (∀ n : Nat, n < 2 ^ 32 → ipToUint32 (uint32ToIP n) = some n) := by
  constructor
  · intro ip hlen hb
    rcases ip with _ | ⟨a, _ | ⟨b, _ | ⟨c, _ | ⟨d, _ | ⟨e, tl⟩⟩⟩⟩⟩ <;> simp_all
    have ha : a < 256 := hb.1
    have hb2 : b < 256 := hb.2.1
    have hc : c < 256 := hb.2.2.1
    have hd : d < 256 := hb.2.2.2
    constructor
    · simp [ipToUint32, to4]
    · have hu : u32OfOctets [a, b, c, d] =
          a * 16777216 + b * 65536 + c * 256 + d := by
        simp [u32OfOctets]
      rw [hu]
      set M := a * 16777216 + b * 65536 + c * 256 + d with hM
      have e1 : M / 16777216 % 256 = a := by omega
      have e2 : M / 65536 % 256 = b := by omega
      have e3 : M / 256 % 256 = c := by omega
      have e4 : M % 256 = d := by omega
      simp [uint32ToIP, netIPv4, IPEqual, v4InV6Pre, e1, e2, e3, e4]
  · intro n hn
    have hn2 : n < 4294967296 := by omega
    simp [ipToUint32, uint32ToIP, netIPv4, to4, v4InV6Pre, u32OfOctets]
    have := u32_digits n hn2
    omega

/-- Witness for C10 at the concrete address 192.168.1.7 and its uint32
value 3232235783. -/
theorem ip_uint32_round_trip_witness :
    ipToUint32 [192, 168, 1, 7] = some (u32OfOctets [192, 168, 1, 7])
    ∧ IPEqual (uint32ToIP (u32OfOctets [192, 168, 1, 7])) [192, 168, 1, 7] = true
    ∧ ipToUint32 (uint32ToIP 3232235783) = some 3232235783 :=
  ⟨(ip_uint32_round_trip.1 [192, 168, 1, 7] (by decide) (by decide)).1,
   (ip_uint32_round_trip.1 [192, 168, 1, 7] (by decide) (by decide)).2,
   ip_uint32_round_trip.2 3232235783 (by norm_num)⟩

/-- Claim C8: expansion is empty-safe and never an error.  An endpoint
with no 4-byte form yields the empty sequence under any fuel; a reversed
range (end value below start value) yields the empty sequence as soon as
the loop runs once; and any two completed runs agree, so the produced
sequence is well defined. -/
theorem expansion_empty_safe :
    (∀ (r : IPRange) (fuel : Nat), to4 r.StartIP = none ∨ to4 r.EndIP = none →
      GenerateIPs fuel r = some [])
    ∧ (∀ (r : IPRange) (fuel : Nat) (s4 e4 : NetIP), to4 r.StartIP = some s4 →
      to4 r.EndIP = some e4 → u32OfOctets e4 < u32OfOctets s4 → 1 ≤ fuel →
      GenerateIPs fuel r = some [])
    ∧ (∀ (r : IPRange) (fuel1 fuel2 : Nat) (l1 l2 : List NetIP),
      GenerateIPs fuel1 r = some l1 → GenerateIPs fuel2 r = some l2 → l1 = l2) := by
  refine ⟨?_, ?_, ?_⟩
  · intro r fuel h
    unfold GenerateIPs
    rcases h with h | h <;> rw [h] <;> cases to4 r.StartIP <;> cases to4 r.EndIP <;> rfl
  · intro r fuel s4 e4 hs he hlt hfuel
    obtain ⟨f, rfl⟩ : ∃ f, fuel = f + 1 := ⟨fuel - 1, by omega⟩
    unfold GenerateIPs
    rw [hs, he]
    simp only [genLoop]
    rw [if_neg (by omega)]
  · intro r fuel1 fuel2 l1 l2 h1 h2
    unfold GenerateIPs at h1 h2
    cases hs : to4 r.StartIP <;> cases he : to4 r.EndIP <;> rw [hs, he] at h1 h2 <;>
      simp only [Option.some_inj] at h1 h2
    · exact h1.symm.trans h2
    · exact h1.symm.trans h2
    · exact h1.symm.trans h2
    · exact genLoop_det fuel1 fuel2 _ _ _ _ _ h1 h2

/-- Witness for C8: a malformed endpoint, a reversed range, and the
determinism of two completed runs, each at concrete inputs. -/
theorem expansion_empty_safe_witness :
    GenerateIPs 5 ⟨[1, 2], [10, 0, 0, 1]⟩ = some []
    ∧ GenerateIPs 1 ⟨[10, 0, 0, 2], [10, 0, 0, 1]⟩ = some []
    ∧ ([netIPv4 10 0 0 1] : List NetIP) = [netIPv4 10 0 0 1] :=
  ⟨expansion_empty_safe.1 ⟨[1, 2], [10, 0, 0, 1]⟩ 5 (Or.inl (by decide)),
   expansion_empty_safe.2.1 ⟨[10, 0, 0, 2], [10, 0, 0, 1]⟩ 1 [10, 0, 0, 2] [10, 0, 0, 1]
     (by decide) (by decide) (by decide) (by decide),
   expansion_empty_safe.2.2 ⟨[10, 0, 0, 1], [10, 0, 0, 1]⟩ 2 3 _ _ (by decide) (by decide)⟩

/-- Unfolding of the drain loop of ScanNetwork: records are appended in
arrival order, the alive counter counts the alive records, and TotalHosts
is untouched by the drain. -/
theorem collectHosts_spec (received : List Host) (init : ScanResult) :
    (collectHosts received init).Hosts = init.Hosts ++ received
    ∧ (collectHosts received init).AliveHosts
        = init.AliveHosts + received.countP (fun h => h.IsAlive)
    ∧ (collectHosts received init).TotalHosts = init.TotalHosts := by
  induction received generalizing init with
  | nil => simp [collectHosts]
  | cons h t ih =>
    rw [show collectHosts (h :: t) init = collectHosts t
      { init with
        Hosts := init.Hosts ++ [h],
        AliveHosts := init.AliveHosts + if h.IsAlive then 1 else 0 } from rfl]
    obtain ⟨e1, e2, e3⟩ := ih
      { init with
        Hosts := init.Hosts ++ [h],
        AliveHosts := init.AliveHosts + if h.IsAlive then 1 else 0 }
    refine ⟨?_, ?_, e3⟩
    · rw [e1]; simp
    · rw [e2]; simp only [List.countP_cons]; by_cases hh : h.IsAlive <;> simp [hh] <;> omega

/-- The summary produced from a delivered record sequence: the records are
exactly the delivered sequence, AliveHosts counts its alive records, and
TotalHosts is the input length. -/
theorem ScanNetwork_spec (ips : List NetIP) (received : List Host) :
    (ScanNetwork ips received).Hosts = received
    ∧ (ScanNetwork ips received).AliveHosts = received.countP (fun h => h.IsAlive)
    ∧ (ScanNetwork ips received).TotalHosts = ips.length := by
  obtain ⟨e1, e2, e3⟩ := collectHosts_spec received
    { TotalHosts := ips.length, AliveHosts := 0, Hosts := [] }
  exact ⟨by simpa [ScanNetwork] using e1, by simpa [ScanNetwork] using e2,
    by simpa [ScanNetwork] using e3⟩

/-- Claim C1: over N addresses the scan returns exactly N records,
TotalHosts equals the record count, AliveHosts equals the count of alive
records, and record count and alive count agree across any two worker
counts at least 1.  The channel semantics is captured by the hypotheses:
each run hands the inputs out to its workers as a partition (a list of
per-worker job streams whose concatenation is a permutation of the input),
every worker maps scanHost (abstracted as scanOne) over its stream, and
the result channel delivers a permutation of the emitted records. -/
theorem scan_summary_counts (scanOne : NetIP → Host) (ips : List NetIP)
    (w1 w2 : Nat) (a1 a2 : List (List NetIP)) (r1 r2 : List Host)
    (hw1 : 1 ≤ w1) (hw2 : 1 ≤ w2)
    (ha1 : a1.length = w1) (ha2 : a2.length = w2)
    (hj1 : a1.join.Perm ips) (hj2 : a2.join.Perm ips)
    (hr1 : r1.Perm (a1.map (worker scanOne)).join)
    (hr2 : r2.Perm (a2.map (worker scanOne)).join) :
    (ScanNetwork ips r1).Hosts.length = ips.length
    ∧ (ScanNetwork ips r1).TotalHosts = (ScanNetwork ips r1).Hosts.length
    ∧ (ScanNetwork ips r1).AliveHosts
        = ((ScanNetwork ips r1).Hosts.filter (fun h => h.IsAlive)).length
    ∧ (ScanNetwork ips r1).Hosts.length = (ScanNetwork ips r2).Hosts.length
    ∧ (ScanNetwork ips r1).AliveHosts = (ScanNetwork ips r2).AliveHosts
    ∧ (ScanNetwork ips r1).TotalHosts = (ScanNetwork ips r2).TotalHosts := by
  have key : ∀ (a : List (List NetIP)) (r : List Host), a.join.Perm ips →
      r.Perm (a.map (worker scanOne)).join →
      r.length = ips.length
      ∧ r.countP (fun h => h.IsAlive) = (ips.map scanOne).countP (fun h => h.IsAlive) := by
    intro a r hj hr
    have hjoin : (a.map (worker scanOne)).join = a.join.map scanOne := by
      have hw : worker scanOne = List.map scanOne := rfl
      rw [hw]
      exact (List.map_join scanOne a).symm
    have hperm : r.Perm (ips.map scanOne) := by
      rw [hjoin] at hr
      exact hr.trans (hj.map scanOne)
    constructor
    · rw [hperm.length_eq]; simp
    · exact hperm.countP_eq _
  obtain ⟨s1h, s1a, s1t⟩ := ScanNetwork_spec ips r1
  obtain ⟨s2h, s2a, s2t⟩ := ScanNetwork_spec ips r2
  obtain ⟨k1l, k1c⟩ := key a1 r1 hj1 hr1
  obtain ⟨k2l, k2c⟩ := key a2 r2 hj2 hr2
  refine ⟨?_, ?_, ?_, ?_, ?_, ?_⟩
  · rw [s1h]; exact k1l
  · rw [s1t, s1h]; exact k1l.symm
  · rw [s1a, s1h]; exact List.countP_eq_length_filter _ _
  · rw [s1h, s2h, k1l, k2l]
  · rw [s1a, s2a, k1c, k2c]
  · rw [s1t, s2t]

/-- Witness for C1: a two-address scan run once with one worker in input
order and once with two workers delivering in the opposite order; all
channel hypotheses hold by computation. -/
theorem scan_summary_counts_witness :
    (ScanNetwork demoIPs demoR1).Hosts.length = demoIPs.length
    ∧ (ScanNetwork demoIPs demoR1).TotalHosts = (ScanNetwork demoIPs demoR1).Hosts.length
    ∧ (ScanNetwork demoIPs demoR1).AliveHosts
        = ((ScanNetwork demoIPs demoR1).Hosts.filter (fun h => h.IsAlive)).length
    ∧ (ScanNetwork demoIPs demoR1).Hosts.length = (ScanNetwork demoIPs demoR2).Hosts.length
    ∧ (ScanNetwork demoIPs demoR1).AliveHosts = (ScanNetwork demoIPs demoR2).AliveHosts
    ∧ (ScanNetwork demoIPs demoR1).TotalHosts = (ScanNetwork demoIPs demoR2).TotalHosts :=
  scan_summary_counts demoScanOne demoIPs 1 2 [demoIPs] demoJobs2 demoR1 demoR2
    (by decide) (by decide) (by decide) (by decide) (by decide) (by decide)
    (by decide) (by decide)

/-- Claim C5 counterexample: the input ::1 contains neither a slash nor a
dash and is not a valid dot-decimal IPv4 address (the dotted-quad grammar
rejects it), yet ParseIPRange returns a range rather than an
InvalidAddress error, because net.ParseIP also accepts IPv6 text. -/
theorem single_address_error_counterexample :
    ("::1".toList.contains '/') = false
    ∧ ("::1".toList.contains '-') = false
    ∧ parseIPv4Chars "::1".toList = none
    ∧ ParseIPRange "::1".toList =
        .ok ⟨[0, 0, 0, 0, 0, 0, 0, 0, 0, 0, 0, 0, 0, 0, 0, 1],
             [0, 0, 0, 0, 0, 0, 0, 0, 0, 0, 0, 0, 0, 0, 0, 1]⟩ :=
  ⟨rfl, rfl, rfl, rfl⟩

/-- Claim C5 (amended): for an input without a slash, parse errors are
exactly as stated once address validity is read as what net.ParseIP
accepts (dot-decimal IPv4 or textual IPv6), not dot-decimal IPv4 alone: a
dash-containing input yields the range error exactly when the dash split
does not have exactly two parts or either whitespace-trimmed side fails IP
parsing; a dash-free input yields the address error exactly when IP
parsing fails; and no range is returned alongside an error. -/
theorem parse_range_errors_amended (s : List Char) (hs : s.contains '/' = false) :
    (s.contains '-' = true →
      (ParseIPRange s = .error .invalidRange ↔
        ((splitChar '-' s).length ≠ 2
          ∨ parseIP (trimSpace ((splitChar '-' s).getD 0 [])) = none
          ∨ parseIP (trimSpace ((splitChar '-' s).getD 1 [])) = none)))
    ∧ (s.contains '-' = false →
      (ParseIPRange s = .error .invalidIPAddr ↔ parseIP s = none))
    ∧ (∀ e r, ParseIPRange s = .error e → ¬ParseIPRange s = .ok r) := by
  refine ⟨?_, ?_, ?_⟩
  · intro hd
    have h1 : ParseIPRange s = parseRange s := by
      unfold ParseIPRange
      rw [hs, hd]
      simp
    rw [h1]
    unfold parseRange
    by_cases hl : (splitChar '-' s).length = 2
    · rw [if_neg (by simpa using hl)]
      cases hp0 : parseIP (trimSpace ((splitChar '-' s).getD 0 [])) <;>
        cases hp1 : parseIP (trimSpace ((splitChar '-' s).getD 1 [])) <;>
        simp [hl]
    · rw [if_pos (by simpa using hl)]
      simp [hl]
  · intro hd
    have h1 : ParseIPRange s =
        (match parseIP s with
         | none => Except.error ParseErr.invalidIPAddr
         | some ip => Except.ok ⟨ip, ip⟩) := by
      unfold ParseIPRange
      rw [hs, hd]
      simp
    rw [h1]
    cases hp : parseIP s <;> simp
  · intro e r he hok
    rw [he] at hok
    exact Except.noConfusion hok

/-- Witness for amended C5: a range input whose right side fails address
parsing yields the range error, an invalid single address yields the
address error, and the latter run returns no range. -/
theorem parse_range_errors_amended_witness :
    ParseIPRange "10.0.0.1-10.0.300.1".toList = .error .invalidRange
    ∧ ParseIPRange "10.0.0.999".toList = .error .invalidIPAddr
    ∧ ¬ParseIPRange "10.0.0.999".toList = .ok ⟨[], []⟩ :=
  ⟨((parse_range_errors_amended "10.0.0.1-10.0.300.1".toList rfl).1 rfl).mpr (by decide),
   ((parse_range_errors_amended "10.0.0.999".toList rfl).2.1 rfl).mpr (by decide),
   (parse_range_errors_amended "10.0.0.999".toList rfl).2.2 ParseErr.invalidIPAddr ⟨[], []⟩
     (((parse_range_errors_amended "10.0.0.999".toList rfl).2.1 rfl).mpr (by decide))⟩

/-- Projections of a scanned record that do not depend on the enrichment
path taken: IsAlive and Error are the probe outcome, Latency is the
elapsed wall-clock oracle. -/
theorem scanHost_fields (goos : String) (run : List String → Option String)
    (elapsed : Nat) (lk : Option (List String)) (macOf : String) (ip : NetIP) (t : Nat) :
    (scanHost goos run elapsed lk macOf ip t).IsAlive = (pingHost goos run (ipString ip) t).1
    ∧ (scanHost goos run elapsed lk macOf ip t).Latency = elapsed
    ∧ (scanHost goos run elapsed lk macOf ip t).Error = (pingHost goos run (ipString ip) t).2 := by
  unfold scanHost
  by_cases hb : (pingHost goos run (ipString ip) t).1 <;>
    rcases lk with _ | ⟨_ | ⟨n0, ns⟩⟩ <;>
    by_cases hm : macOf = "" <;>
    simp [hb, hm]

/-- Claim C6: whenever the probe supports the platform (the argument
construction succeeds), the scanned record is alive exactly when the
invoked process reports a success exit status; a failure outcome marks the
record not alive with the raw error detail stored on it; and the recorded
latency is the elapsed wall-clock oracle measured around the invocation
(the run oracle and hence anything the utility prints cannot influence
it). -/
theorem probe_reachability_latency (goos : String) (run : List String → Option String)
    (elapsed : Nat) (lk : Option (List String)) (macOf : String) (ip : NetIP)
    (t : Nat) (args : List String)
    (hargs : pingArgs goos t (ipString ip) = some args) :
    ((scanHost goos run elapsed lk macOf ip t).IsAlive = true ↔ run args = none)
    ∧ (scanHost goos run elapsed lk macOf ip t).Latency = elapsed
    ∧ (∀ e, run args = some e →
        (scanHost goos run elapsed lk macOf ip t).IsAlive = false
        ∧ (scanHost goos run elapsed lk macOf ip t).Error = some (.exitErr e)) := by
  obtain ⟨f1, f2, f3⟩ := scanHost_fields goos run elapsed lk macOf ip t
  cases hr : run args with
  | none =>
    have hp : pingHost goos run (ipString ip) t = (true, none) := by
      unfold pingHost
      rw [hargs]
      simp [hr]
    refine ⟨?_, f2, ?_⟩
    · rw [f1, hp]
      simp [hr]
    · intro e he
      exact Option.noConfusion he
  | some d =>
    have hp : pingHost goos run (ipString ip) t = (false, some (.exitErr d)) := by
      unfold pingHost
      rw [hargs]
      simp [hr]
    refine ⟨?_, f2, ?_⟩
    · rw [f1, hp]
      simp [hr]
    · intro e he
      obtain rfl : d = e := Option.some_injective _ he
      exact ⟨by rw [f1, hp], by rw [f3, hp]⟩

/-- Witness for C6 on linux with a 500 ms timeout: a succeeding run oracle
gives an alive record, a failing one gives a dead record carrying the raw
exit detail, and the latency is the elapsed oracle. -/
theorem probe_reachability_latency_witness :
    ((scanHost "linux" (fun _ => none) 7 none "" [10, 0, 0, 1] 500000000).IsAlive = true
      ↔ (fun _ : List String => (none : Option String))
          ["-c", "1", "-W", "500", "10.0.0.1"] = none)
    ∧ (scanHost "linux" (fun _ => none) 7 none "" [10, 0, 0, 1] 500000000).Latency = 7
    ∧ ((scanHost "linux" (fun _ => some "exit status 1") 7 none "" [10, 0, 0, 1]
          500000000).IsAlive = false
        ∧ (scanHost "linux" (fun _ => some "exit status 1") 7 none "" [10, 0, 0, 1]
            500000000).Error = some (.exitErr "exit status 1")) :=
  ⟨(probe_reachability_latency "linux" (fun _ => none) 7 none "" [10, 0, 0, 1]
      500000000 _ rfl).1,
   (probe_reachability_latency "linux" (fun _ => none) 7 none "" [10, 0, 0, 1]
      500000000 _ rfl).2.1,
   (probe_reachability_latency "linux" (fun _ => some "exit status 1") 7 none ""
      [10, 0, 0, 1] 500000000 _ rfl).2.2 "exit status 1" rfl⟩

/-- Claim C9: when the probe reports an address unreachable, the emitted
record carries no enrichment (hostname, MAC and vendor all empty), and it
does not depend on the reverse-DNS or neighbor-table oracles at all, which
models that those lookups are never invoked for that address. -/
theorem enrichment_only_when_reachable (goos : String) (run : List String → Option String)
    (elapsed : Nat) (lk : Option (List String)) (macOf : String) (ip : NetIP) (t : Nat)
    (hdead : (pingHost goos run (ipString ip) t).1 = false) :
    scanHost goos run elapsed lk macOf ip t =
      { IP := ip, Hostname := "", MAC := "", Vendor := "", Latency := elapsed,
        IsAlive := false, Error := (pingHost goos run (ipString ip) t).2 }
    ∧ ∀ (lk2 : Option (List String)) (macOf2 : String),
        scanHost goos run elapsed lk2 macOf2 ip t = scanHost goos run elapsed lk macOf ip t := by
  have hmain : ∀ (lka : Option (List String)) (maca : String),
      scanHost goos run elapsed lka maca ip t =
        { IP := ip, Hostname := "", MAC := "", Vendor := "", Latency := elapsed,
          IsAlive := false, Error := (pingHost goos run (ipString ip) t).2 } := by
    intro lka maca
    unfold scanHost
    simp [hdead]
  exact ⟨hmain lk macOf, fun lk2 mac2 => (hmain lk2 mac2).trans (hmain lk macOf).symm⟩

/-- Witness for C9: a failing probe on linux leaves the record without
hostname, MAC or vendor, and swapping in different enrichment oracles
changes nothing. -/
theorem enrichment_only_when_reachable_witness :
    scanHost "linux" (fun _ => some "exit status 1") 7 (some ["gw.example.com."])
        "B8:27:EB:11:22:33" [10, 0, 0, 1] 500000000 =
      { IP := [10, 0, 0, 1], Hostname := "", MAC := "", Vendor := "", Latency := 7,
        IsAlive := false,
        Error := (pingHost "linux" (fun _ => some "exit status 1") (ipString [10, 0, 0, 1])
          500000000).2 }
    ∧ scanHost "linux" (fun _ => some "exit status 1") 7 none "" [10, 0, 0, 1] 500000000
      = scanHost "linux" (fun _ => some "exit status 1") 7 (some ["gw.example.com."])
          "B8:27:EB:11:22:33" [10, 0, 0, 1] 500000000 :=
  ⟨(enrichment_only_when_reachable "linux" (fun _ => some "exit status 1") 7
      (some ["gw.example.com."]) "B8:27:EB:11:22:33" [10, 0, 0, 1] 500000000 rfl).1,
   (enrichment_only_when_reachable "linux" (fun _ => some "exit status 1") 7
      (some ["gw.example.com."]) "B8:27:EB:11:22:33" [10, 0, 0, 1] 500000000 rfl).2
      none ""⟩

end HostScanner
